import Mathlib

/-!
Verification development for the streamforge HLS download core
(`src/services/downloader.ts`, `src/utils/url.ts`, shared types in
`src/unnamed/part_001`).

Strings are embedded as `List Char` (JS strings are sequences of code
units; all inputs of interest are ASCII), byte buffers as `List Nat`
(each entry a byte value), and JS `undefined`/`NaN`-carrying values as
`Option`.  Platform builtins (`RegExp.exec`, `parseInt`, `parseFloat`,
`new URL`, `DataView.setBigUint64`) are embedded by executable Lean
functions mirroring their behaviour on the inputs this code feeds them;
deviations are noted in the doc comment of each such function.
-/

/-- JS whitespace test used by `String.prototype.trim` (restricted to the
ASCII whitespace characters that can occur in manifest text). -/
def isJsWhitespace (c : Char) : Bool :=
  c == ' ' || c == '\t' || c == '\n' || c == '\r' || c == Char.ofNat 11 || c == Char.ofNat 12

/-- Embedding of `line.trim()`: strip leading and trailing whitespace. -/
def trimChars (l : List Char) : List Char :=
  ((l.dropWhile isJsWhitespace).reverse.dropWhile isJsWhitespace).reverse

/-- Embedding of `text.split(sep)` for a one-character separator (as used
with `text.split('\n')` and `line.split(':')`). -/
def splitOnChar (sep : Char) : List Char → List (List Char)
  | [] => [[]]
  | c :: cs =>
    if c == sep then [] :: splitOnChar sep cs
    else
      match splitOnChar sep cs with
      | [] => [[c]]
      | p :: ps => (c :: p) :: ps

/-- Embedding of `text.includes(pat)`: substring containment. -/
def containsSub (pat : List Char) : List Char → Bool
  | [] => pat.isEmpty
  | c :: cs => pat.isPrefixOf (c :: cs) || containsSub pat cs

/-- Decimal digit test. -/
def isDigitC (c : Char) : Bool := '0' ≤ c && c ≤ '9'

/-- Value of a decimal digit. -/
def digitVal (c : Char) : Nat := c.toNat - '0'.toNat

/-- Embedding of `parseInt(s)` (radix 10): skip leading whitespace, take an
optional sign and then the longest prefix of decimal digits; `none` stands
for `NaN` (no digits).  The `0x`-prefix hexadecimal acceptance of the
builtin is not modelled: no claim depends on it. -/
def jsParseIntDec (l : List Char) : Option Int :=
  let l1 := l.dropWhile isJsWhitespace
  let signAndRest : Int × List Char :=
    match l1 with
    | '-' :: r => (-1, r)
    | '+' :: r => (1, r)
    | _ => (1, l1)
  let ds := signAndRest.2.takeWhile isDigitC
  if ds.isEmpty then none
  else some (signAndRest.1 * (ds.foldl (fun a c => a * 10 + digitVal c) 0 : Nat))

/-- Embedding of `parseFloat(s)`: skip leading whitespace, optional sign,
decimal digits with an optional fractional part; `none` stands for `NaN`.
Exponent notation is not modelled: no claim depends on it. -/
def jsParseFloatQ (l : List Char) : Option Rat :=
  let l1 := l.dropWhile isJsWhitespace
  let isNeg : Bool :=
    match l1 with
    | '-' :: _ => true
    | _ => false
  let l2 : List Char :=
    match l1 with
    | '-' :: r => r
    | '+' :: r => r
    | _ => l1
  let intPart := l2.takeWhile isDigitC
  let rest := l2.dropWhile isDigitC
  let fracPart : List Char :=
    match rest with
    | '.' :: r => r.takeWhile isDigitC
    | _ => []
  if intPart.isEmpty && fracPart.isEmpty then none
  else
    let ipv : Nat := intPart.foldl (fun a c => a * 10 + digitVal c) 0
    let fpv : Nat := fracPart.foldl (fun a c => a * 10 + digitVal c) 0
    let mag : Rat :=
      if fracPart.isEmpty then (ipv : Rat)
      else (ipv : Rat) + (fpv : Rat) / ((10 : Rat) ^ fracPart.length)
    some (if isNeg then -mag else mag)

/-- Character class `[A-Z0-9-]` of the attribute-name group in
`parseAttributes`' regular expression. -/
def isAttrNameChar (c : Char) : Bool :=
  ('A' ≤ c && c ≤ 'Z') || ('0' ≤ c && c ≤ '9') || c == '-'

/-- Value part of one regex match: after the `=`, the engine first tries
`"([^"]*)"` (quoted; an empty quoted value yields `undefined` because of
the `match[3] || match[4]` read in the source) and otherwise falls back to
`([^,]*)` (greedy run of non-comma characters, possibly empty).  Returns
the captured value and the remainder of the input after the match. -/
def attrValue : List Char → Option (List Char) × List Char
  | '"' :: rest =>
    let content := rest.takeWhile (fun c => !(c == '"'))
    let after := rest.dropWhile (fun c => !(c == '"'))
    match after with
    | '"' :: rem => (if content.isEmpty then none else some content, rem)
    | _ =>
      let run := ('"' :: rest).takeWhile (fun c => !(c == ','))
      (some run, ('"' :: rest).dropWhile (fun c => !(c == ',')))
  | l => (some (l.takeWhile (fun c => !(c == ','))), l.dropWhile (fun c => !(c == ',')))

/-- One step of the global `regex.exec` loop of `parseAttributes`: find the
leftmost match of `([A-Z0-9-]+)=("([^"]*)"|([^,]*))`, returning the
attribute name, its captured value and the rest of the input.  A name
matches at a position exactly when the maximal run of name characters
starting there is non-empty and immediately followed by `=`. -/
def attrFindGo : Nat → List Char → Option ((List Char × Option (List Char)) × List Char)
  | 0, _ => none
  | _ + 1, [] => none
  | fuel + 1, c :: rest =>
    if isAttrNameChar c then
      match rest.dropWhile isAttrNameChar with
      | '=' :: tl =>
        some ((c :: rest.takeWhile isAttrNameChar, (attrValue tl).1), (attrValue tl).2)
      | after => attrFindGo fuel after
    else attrFindGo fuel rest

/-- Leftmost-match search with sufficient fuel: every recursive step of
`attrFindGo` discards at least one character, so `l.length + 1` units of
fuel always reach the verdict the unfuelled scan would give. -/
def attrFind (l : List Char) : Option ((List Char × Option (List Char)) × List Char) :=
  attrFindGo (l.length + 1) l

/-- Embedding of the `while ((match = regex.exec(line)) !== null)` loop of
`parseAttributes`, collecting `(name, value)` pairs in match order.  The
fuel argument only bounds the number of loop iterations; every match
consumes at least two characters, so `l.length + 1` units always suffice
and the fuelled loop computes exactly what the source loop does. -/
def attrLoop : Nat → List Char → List (List Char × Option (List Char))
  | 0, _ => []
  | fuel + 1, l =>
    match attrFind l with
    | none => []
    | some (p, rem) => p :: attrLoop fuel rem

/-- Embedding of `parseAttributes` (src/services/downloader.ts:5-13): parse
`KEY=VALUE` / `KEY="VALUE"` attribute pairs. -/
def parseAttributes (l : List Char) : List (List Char × Option (List Char)) :=
  attrLoop (l.length + 1) l

/-- Lookup in the object built by `parseAttributes`: later assignments to
the same name overwrite earlier ones, so the last matching pair wins;
`none` stands for an absent property or one set to `undefined`. -/
def attrGet (attrs : List (List Char × Option (List Char))) (name : List Char) :
    Option (List Char) :=
  match attrs.reverse.find? (fun p => p.1 == name) with
  | some p => p.2
  | none => none

/-- JS truthiness of a string-or-undefined value: `undefined` and the empty
string are falsy. -/
def jsTruthy (v : Option (List Char)) : Bool :=
  match v with
  | some s => !s.isEmpty
  | none => false

/-- Hexadecimal digit test. -/
def isHexDigitC (c : Char) : Bool :=
  isDigitC c || ('a' ≤ c && c ≤ 'f') || ('A' ≤ c && c ≤ 'F')

/-- Value of a hexadecimal digit. -/
def hexVal (c : Char) : Nat :=
  if isDigitC c then digitVal c
  else if 'a' ≤ c && c ≤ 'f' then c.toNat - 'a'.toNat + 10
  else c.toNat - 'A'.toNat + 10

/-- Embedding of `parseInt(hh, 16)` on a two-character slice followed by the
`Uint8Array` store: the longest prefix of hex digits is read (no digits,
i.e. `NaN`, stores 0).  Sign/whitespace edge cases of the builtin are not
modelled: no claim feeds them. -/
def hexPairToByte (cs : List Char) : Nat :=
  (cs.takeWhile isHexDigitC).foldl (fun a c => a * 16 + hexVal c) 0

/-- Embedding of `hexToBytes` (src/services/downloader.ts:16-23): strip an
optional `0x` prefix and decode consecutive two-character slices. -/
def hexToBytes (h : List Char) : List Nat :=
  let cleanHex := if ['0', 'x'].isPrefixOf h then h.drop 2 else h
  (List.range (cleanHex.length / 2)).map (fun i => hexPairToByte ((cleanHex.drop (2 * i)).take 2))

/-- The eight bytes written by `DataView.setBigUint64` (big-endian) for a
value already reduced below `2 ^ 64`. -/
def beBytes64 (n : Nat) : List Nat :=
  [n / 2 ^ 56 % 256, n / 2 ^ 48 % 256, n / 2 ^ 40 % 256, n / 2 ^ 32 % 256,
   n / 2 ^ 24 % 256, n / 2 ^ 16 % 256, n / 2 ^ 8 % 256, n % 256]

/-- Write a run of bytes into a buffer starting at an offset, one position
at a time (as `DataView` stores and `merged.set(buffer, offset)` do). -/
def writeBytesAt : List Nat → Nat → List Nat → List Nat
  | buf, _, [] => buf
  | buf, off, b :: bs => writeBytesAt (buf.set off b) (off + 1) bs

/-- Embedding of `sequenceToIV` (src/services/downloader.ts:26-42): a
16-byte zero buffer with `BigInt(seq)` stored big-endian at offset 8;
`setBigUint64` reduces its argument modulo `2 ^ 64`. -/
def sequenceToIV (seq : Int) : List Nat :=
  writeBytesAt (List.replicate 16 0) 8 (beBytes64 ((seq % ((2 : Int) ^ 64)).toNat))

/-- Test for `/^https?:\/\//i` (src/utils/url.ts:9). -/
def isHttpAbsolute (l : List Char) : Bool :=
  "http://".toList.isPrefixOf (l.map Char.toLower) ||
    "https://".toList.isPrefixOf (l.map Char.toLower)

/-- Scheme of a base URL followed by `:`, as `base.protocol` yields it. -/
def urlScheme (base : List Char) : List Char :=
  (base.takeWhile (fun c => !(c == ':'))).map Char.toLower ++ [':']

/-- Prefix of a path up to and including its last `/` (empty if none). -/
def lastSlashDir (path : List Char) : List Char :=
  (path.reverse.dropWhile (fun c => !(c == '/'))).reverse

/-- Embedding of `new URL(relativeUrl, base.href).toString()` for an
`http(s)` base: root-relative references replace the whole path,
path-relative ones replace everything after the last `/` of the base
path.  Query/fragment splitting and dot-segment normalisation of the
WHATWG parser are not modelled: no claim exercises them. -/
def urlJoin (base rel : List Char) : List Char :=
  let afterScheme := (base.dropWhile (fun c => !(c == ':'))).drop 3
  let host := afterScheme.takeWhile (fun c => !(c == '/'))
  let path := afterScheme.dropWhile (fun c => !(c == '/'))
  let origin := urlScheme base ++ ['/', '/'] ++ host
  match rel with
  | '/' :: _ => origin ++ rel
  | _ =>
    let dir := if (lastSlashDir path).isEmpty then ['/'] else lastSlashDir path
    origin ++ dir ++ rel

/-- Embedding of `resolveUrl` (src/utils/url.ts:5-30).  A falsy (absent or
empty) relative URL yields the empty string; an already-absolute URL is
returned unchanged; an invalid base (here: not `http(s)`) makes the `URL`
constructor throw, and the catch branch returns the relative URL;
protocol-relative URLs are prefixed with the base's scheme. -/
def resolveUrl (baseUrl rel : List Char) : List Char :=
  if rel.isEmpty then []
  else if isHttpAbsolute rel then rel
  else if isHttpAbsolute baseUrl then
    if ['/', '/'].isPrefixOf rel then urlScheme baseUrl ++ rel
    else urlJoin baseUrl rel
  else rel

/-- Embedding of the `EncryptionData` interface (src/unnamed/part_001).
The `method` field is an arbitrary string in practice (the source casts
with `as any`); `uri` is always assigned by the parser (possibly empty);
`iv` is `undefined` when no explicit IV attribute was given. -/
structure EncryptionData where
  method : List Char
  uri : List Char
  iv : Option (List Nat)
deriving DecidableEq, Repr

/-- Embedding of the `Segment` interface (src/unnamed/part_001) as produced
by the parser and consumed by `downloadSegments`; `seqId = none` stands
for an absent or `NaN` sequence id, `isInitSegment` is `false` where the
source leaves the optional field unset. -/
structure Segment where
  url : List Char
  index : Nat
  encryption : Option EncryptionData
  seqId : Option Int
  isInitSegment : Bool
deriving DecidableEq, Repr

/-- Embedding of the `StreamInfo` interface (src/unnamed/part_001); the
`Option Rat` fields carry `none` for `NaN`. -/
structure StreamInfo where
  duration : Option Rat
  segmentCount : Nat
  targetDuration : Option Rat
  isEncrypted : Bool
deriving DecidableEq, Repr

/-- Running state of the `fetchManifest` parsing loop
(src/services/downloader.ts:64-125). -/
structure PState where
  segments : List Segment
  targetDuration : Option Rat
  mediaSequence : Option Int
  currentKey : Option EncryptionData
  isEncrypted : Bool
  segmentIndex : Nat
deriving DecidableEq, Repr

/-- Initial parser state: empty segment list, `targetDuration = 0`,
`mediaSequence = 0`, no current key, not encrypted, next index 0. -/
def initialPState : PState :=
  { segments := [], targetDuration := some 0, mediaSequence := some 0,
    currentKey := none, isEncrypted := false, segmentIndex := 0 }

/-- The `currentKey` value installed by one `#EXT-X-KEY:` directive line
(already trimmed): `some` EncryptionData when the METHOD attribute is
truthy and not `NONE` (key URI resolved against the manifest URL, IV
decoded from hex when present), `none` when the directive clears the key
(src/services/downloader.ts:84-101). -/
def keyDirectiveKey (url line : List Char) : Option EncryptionData :=
  let attrs := parseAttributes (line.drop 11)
  let method := attrGet attrs "METHOD".toList
  if jsTruthy method && !(method == some "NONE".toList) then
    some { method := method.getD [],
           uri := resolveUrl url ((attrGet attrs "URI".toList).getD []),
           iv := if jsTruthy (attrGet attrs "IV".toList) then
                   some (hexToBytes ((attrGet attrs "IV".toList).getD []))
                 else none }
  else none

/-- The `#EXT-X-TARGETDURATION:` branch of the parsing loop
(src/services/downloader.ts:76-78). -/
def tdStep (s : PState) (line : List Char) : PState :=
  if "#EXT-X-TARGETDURATION:".toList.isPrefixOf line then
    { s with targetDuration := ((splitOnChar ':' line).get? 1).bind jsParseFloatQ }
  else s

/-- The `#EXT-X-MEDIA-SEQUENCE:` branch of the parsing loop
(src/services/downloader.ts:80-82). -/
def msStep (s : PState) (line : List Char) : PState :=
  if "#EXT-X-MEDIA-SEQUENCE:".toList.isPrefixOf line then
    { s with mediaSequence := ((splitOnChar ':' line).get? 1).bind jsParseIntDec }
  else s

/-- The `#EXT-X-KEY:` branch of the parsing loop
(src/services/downloader.ts:84-101). -/
def keyStep (url : List Char) (s : PState) (line : List Char) : PState :=
  if "#EXT-X-KEY:".toList.isPrefixOf line then
    { s with currentKey := keyDirectiveKey url line,
             isEncrypted := s.isEncrypted || (keyDirectiveKey url line).isSome }
  else s

/-- The `#EXT-X-MAP:` branch of the parsing loop
(src/services/downloader.ts:103-115). -/
def mapStep (url : List Char) (s : PState) (line : List Char) : PState :=
  if "#EXT-X-MAP:".toList.isPrefixOf line then
    let attrs := parseAttributes (line.drop 11)
    if jsTruthy (attrGet attrs "URI".toList) then
      { s with
        segments := s.segments ++
          [{ url := resolveUrl url ((attrGet attrs "URI".toList).getD []),
             index := s.segmentIndex,
             encryption := s.currentKey,
             seqId := s.mediaSequence.map (fun m => m + (s.segments.length : Int)),
             isInitSegment := true }],
        segmentIndex := s.segmentIndex + 1 }
    else s
  else s

/-- The segment-URI branch of the parsing loop
(src/services/downloader.ts:117-124). -/
def uriStep (url : List Char) (s : PState) (line : List Char) : PState :=
  if !("#".toList.isPrefixOf line) then
    { s with
      segments := s.segments ++
        [{ url := resolveUrl url line,
           index := s.segmentIndex,
           encryption := s.currentKey,
           seqId := s.mediaSequence.map (fun m => m + (s.segments.length : Int)),
           isInitSegment := false }],
      segmentIndex := s.segmentIndex + 1 }
  else s

/-- Embedding of one iteration of the `fetchManifest` line loop
(src/services/downloader.ts:72-125): trim the line, skip it when blank,
then apply the four directive branches and the segment-URI branch in
source order. -/
def parseLine (url : List Char) (s : PState) (raw : List Char) : PState :=
  let line := trimChars raw
  if line.isEmpty then s
  else uriStep url (mapStep url (keyStep url (msStep (tdStep s line) line) line) line) line

/-- Fold of `parseLine` over the lines of a manifest. -/
def parseLines (url : List Char) (s : PState) (ls : List (List Char)) : PState :=
  ls.foldl (parseLine url) s

/-- Errors thrown by the manifest-parsing part of `fetchManifest`:
`NotVariantPlaylist` for "This is a Master Playlist..." and
`NoSegmentsFound` for "No segments found.". -/
inductive ParseError where
  | NotVariantPlaylist
  | NoSegmentsFound
deriving DecidableEq, Repr

deriving instance DecidableEq for Except

/-- Embedding of `HLSDownloader.fetchManifest`
(src/services/downloader.ts:50-140) from the point where the manifest
text has been fetched: reject master playlists by raw substring search,
fold the line parser, fail when no segments were produced, and otherwise
return the segments with the derived `StreamInfo`. -/
def parseManifest (url text : List Char) :
    Except ParseError (List Segment × StreamInfo) :=
  if containsSub "#EXT-X-STREAM-INF".toList text then .error .NotVariantPlaylist
  else
    let st := parseLines url initialPState (splitOnChar '\n' text)
    if st.segments.length = 0 then .error .NoSegmentsFound
    else
      .ok (st.segments,
        { segmentCount := st.segments.length,
          targetDuration := st.targetDuration,
          duration := st.targetDuration.map (fun q => (st.segments.length : Rat) * q),
          isEncrypted := st.isEncrypted })

/-- Test whether a raw manifest line is a key directive (after trimming,
as the parsing loop sees it). -/
def isKeyLine (raw : List Char) : Bool :=
  "#EXT-X-KEY:".toList.isPrefixOf (trimChars raw)

/-- Test whether a (trimmed) directive line is an `#EXT-X-MAP:` directive
that emits an init-segment descriptor, i.e. one with a truthy URI
attribute (src/services/downloader.ts:103-115). -/
def emitsInitSegment (line : List Char) : Bool :=
  "#EXT-X-MAP:".toList.isPrefixOf line &&
    jsTruthy (attrGet (parseAttributes (line.drop 11)) "URI".toList)

/-- Test whether a raw manifest line is a key directive whose METHOD
attribute is truthy (present and non-empty) and not `NONE` — exactly the
condition under which the parsing loop sets `isEncrypted = true`
(src/services/downloader.ts:86-88). -/
def keyLineSetsEncryption (raw : List Char) : Bool :=
  isKeyLine raw &&
    (let method := attrGet (parseAttributes ((trimChars raw).drop 11)) "METHOD".toList
     jsTruthy method && !(method == some "NONE".toList))

/-- Errors thrown inside `downloadSegments` / `decryptSegment`
(src/services/downloader.ts:142-234): "Download aborted", "Failed to
fetch segment i", "Failed to fetch key from uri", "Decryption failed.
Check key validity or IV.". -/
inductive DlError where
  | Aborted
  | SegmentFetchFailed (index : Nat)
  | KeyFetchFailed (uri : List Char)
  | DecryptionFailed
deriving DecidableEq, Repr

/-- Deterministic environment for one `downloadSegments` run.  Network
fetches are oracles from URL to `some` body bytes or `none` (a failed
response); `aesDecrypt key iv data` is the AES-CBC primitive, `none`
meaning the cipher rejects the input.  The cancellation signal is
modelled by the value it is observed to have at each program point that
reads it: `abortedAtBatch b` is `signal.aborted` at the check before the
`b`-th batch starts, and `abortedAtCatch i` is `signal.aborted` when the
per-task catch block for the segment of descriptor index `i` runs. -/
structure DlEnv where
  fetchSeg : List Char → Option (List Nat)
  fetchKey : List Char → Option (List Nat)
  aesDecrypt : List Nat → List Nat → List Nat → Option (List Nat)
  abortedAtBatch : Nat → Bool
  abortedAtCatch : Nat → Bool

/-- Embedding of `HLSDownloader.decryptSegment`
(src/services/downloader.ts:192-234): a falsy key URI returns the data
unchanged; otherwise fetch the key (failure throws `KeyFetchFailed`),
take the manifest IV if present and the sequence-derived IV otherwise,
and decrypt (failure throws `DecryptionFailed`).  The per-session key
cache only memoises the pure `fetchKey`/key-import composite, so it is
observationally absent here. -/
def decryptSegment (env : DlEnv) (data : List Nat) (encryption : EncryptionData)
    (seqId : Int) : Except DlError (List Nat) :=
  if encryption.uri.isEmpty then .ok data
  else
    match env.fetchKey encryption.uri with
    | none => .error (.KeyFetchFailed encryption.uri)
    | some keyBytes =>
      let iv := match encryption.iv with
        | some iv => iv
        | none => sequenceToIV seqId
      match env.aesDecrypt keyBytes iv data with
      | none => .error .DecryptionFailed
      | some out => .ok out

/-- The `seg.seqId || seg.index` read (src/services/downloader.ts:172):
`undefined`, `NaN` and `0` are all falsy and fall back to the index. -/
def jsSeqIdOrIndex (seg : Segment) : Int :=
  match seg.seqId with
  | some n => if n = 0 then (seg.index : Int) else n
  | none => (seg.index : Int)

/-- Embedding of one batch task without its catch block
(src/services/downloader.ts:161-173): fetch the segment bytes (a bad
response throws `SegmentFetchFailed`), then decrypt them exactly when the
segment carries encryption with method `AES-128` and a truthy key URI. -/
def runTask (env : DlEnv) (seg : Segment) : Except DlError (List Nat) :=
  match env.fetchSeg seg.url with
  | none => .error (.SegmentFetchFailed seg.index)
  | some bytes =>
    match seg.encryption with
    | some enc =>
      if enc.method == "AES-128".toList && !enc.uri.isEmpty then
        decryptSegment env bytes enc (jsSeqIdOrIndex seg)
      else .ok bytes
    | none => .ok bytes

/-- Embedding of one batch under `Promise.all`
(src/services/downloader.ts:160-186): every task runs; a successful task
stores its buffer at `results[seg.index]`; a failing task consults the
signal in its catch block — if the signal is set the failure is
swallowed, otherwise it becomes the batch's rejection (the first such
failure wins).  `List.set` is a no-op out of range, matching in-range
stores; descriptor lists produced by the parser index within range. -/
def runBatchGo (env : DlEnv) :
    List Segment → List (Option (List Nat)) → Option DlError →
      List (Option (List Nat)) × Option DlError
  | [], res, err => (res, err)
  | seg :: rest, res, err =>
    match runTask env seg with
    | .ok d => runBatchGo env rest (res.set seg.index (some d)) err
    | .error e =>
      if env.abortedAtCatch seg.index then runBatchGo env rest res err
      else
        runBatchGo env rest res (match err with
          | some e0 => some e0
          | none => some e)

/-- One batch, starting with no pending rejection. -/
def runBatch (env : DlEnv) (batch : List Segment) (res : List (Option (List Nat))) :
    List (Option (List Nat)) × Option DlError :=
  runBatchGo env batch res none

/-- Split a segment list into the batches of `BATCH_SIZE = 5` that the
`for (let i = 0; i < segments.length; i += BATCH_SIZE)` loop slices: full
slices of five while five or more segments remain, then one final short
slice. -/
def chunks5 : List Segment → List (List Segment)
  | [] => []
  | a :: b :: c :: d :: e :: rest => [a, b, c, d, e] :: chunks5 rest
  | l => [l]

/-- Embedding of the batch loop of `downloadSegments`
(src/services/downloader.ts:157-187): before batch `b` starts, the
cancellation signal is checked and a set signal throws "Download
aborted"; then the batch runs, a rejection fails the whole operation, and
otherwise the loop continues with the updated results array. -/
def dlGo (env : DlEnv) : Nat → List (Option (List Nat)) → List (List Segment) →
    Except DlError (List (Option (List Nat)))
  | _, results, [] => .ok results
  | b, results, batch :: rest =>
    if env.abortedAtBatch b then .error .Aborted
    else
      match runBatch env batch results with
      | (_, some e) => .error e
      | (results1, none) => dlGo env (b + 1) results1 rest

/-- Embedding of `HLSDownloader.downloadSegments`
(src/services/downloader.ts:142-190): a fresh results array of the
segment count (holes are `none`), processed in batches of five. -/
def downloadSegments (env : DlEnv) (segments : List Segment) :
    Except DlError (List (Option (List Nat))) :=
  dlGo env 0 (List.replicate segments.length none) (chunks5 segments)

/-- The `buffers.filter(b => b && b.length > 0)` step of `stitchSegments`:
drop holes (`undefined`) and zero-length buffers
(src/services/downloader.ts:238). -/
def survivors (buffers : List (Option (List Nat))) : List (List Nat) :=
  buffers.filterMap (fun b =>
    match b with
    | some l => if l.length > 0 then some l else none
    | none => none)

/-- The copy loop of `stitchSegments`: `merged.set(buffer, offset)` for
each surviving buffer at the running offset
(src/services/downloader.ts:241-245). -/
def stitchLoop : List (List Nat) → List Nat → Nat → List Nat
  | [], merged, _ => merged
  | b :: bs, merged, off => stitchLoop bs (writeBytesAt merged off b) (off + b.length)

/-- Embedding of `HLSDownloader.stitchSegments`
(src/services/downloader.ts:236-247): filter, allocate a zero buffer of
the total length, and copy each surviving buffer in order. -/
def stitchSegments (buffers : List (Option (List Nat))) : List Nat :=
  let validBuffers := survivors buffers
  let totalLength := validBuffers.foldl (fun acc b => acc + b.length) 0
  stitchLoop validBuffers (List.replicate totalLength 0) 0

/-- The results array as assembled by concurrent per-task stores: each
write `(i, buf)` executes `results[i] = buf`, in the list's order.  Used
to express that any completion order of the same set of writes to
distinct indices yields the same array, hence the same stitched output. -/
def buildResults (n : Nat) (writes : List (Nat × List Nat)) : List (Option (List Nat)) :=
  writes.foldl (fun arr w => arr.set w.1 (some w.2)) (List.replicate n none)

/-- A task "resolves" (its promise does not reject) when it either
succeeds or its failure is swallowed because the signal was observed set
in its catch block. -/
def taskResolves (env : DlEnv) (seg : Segment) : Bool :=
  match runTask env seg with
  | .ok _ => true
  | .error _ => env.abortedAtCatch seg.index

/-- The results array produced by a run in which every task succeeds:
each segment's task output is stored at the segment's descriptor index,
in order. -/
def writeRun (env : DlEnv) : List (Option (List Nat)) → List Segment →
    List (Option (List Nat))
  | res, [] => res
  | res, seg :: rest => writeRun env (res.set seg.index ((runTask env seg).toOption)) rest

/-- Concrete fixture for P6: twelve plain segments. -/
def p6Segs : List Segment :=
  (List.range 12).map (fun i =>
    { url := "https://cdn.example/s.ts".toList, index := i, encryption := none,
      seqId := some ((i : Int) + 100), isInitSegment := false })

/-- Concrete fixture for P6: all fetches succeed and the signal is
observed set exactly at the check before batch 1. -/
def p6Env : DlEnv :=
  { fetchSeg := fun _ => some [1], fetchKey := fun _ => none,
    aesDecrypt := fun _ _ _ => none, abortedAtBatch := fun b => b == 1,
    abortedAtCatch := fun _ => false }

/-- Concrete fixture: a segment tagged with the unsupported `SAMPLE-AES`
method and a key URI. -/
def sampleAesSeg : Segment :=
  { url := "https://s/seg1.ts".toList, index := 0,
    encryption := some { method := "SAMPLE-AES".toList,
                         uri := "https://s/key.bin".toList, iv := none },
    seqId := some 1, isInitSegment := false }

/-- Concrete fixture: segment fetches succeed with bytes `[1, 2, 3]`, but
any key fetch or decryption attempt would fail; no cancellation. -/
def sampleAesEnv : DlEnv :=
  { fetchSeg := fun _ => some [1, 2, 3], fetchKey := fun _ => none,
    aesDecrypt := fun _ _ _ => none, abortedAtBatch := fun _ => false,
    abortedAtCatch := fun _ => false }

/-- Concrete fixture: abort requested while the only batch is in flight —
the fetch fails, and the catch block observes the signal set. -/
def abortLastBatchEnv : DlEnv :=
  { fetchSeg := fun _ => none, fetchKey := fun _ => none,
    aesDecrypt := fun _ _ _ => none, abortedAtBatch := fun _ => false,
    abortedAtCatch := fun _ => true }

/-- Concrete fixture: one plain segment descriptor. -/
def plainSeg0 : Segment :=
  { url := "https://s/seg1.ts".toList, index := 0, encryption := none,
    seqId := none, isInitSegment := false }

/-- Concrete fixture: all fetches succeed with bytes `[7]`, cancellation
never requested. -/
def noAbortEnv : DlEnv :=
  { fetchSeg := fun _ => some [7], fetchKey := fun _ => none,
    aesDecrypt := fun _ _ _ => none, abortedAtBatch := fun _ => false,
    abortedAtCatch := fun _ => false }

/-- Concrete fixture: two plain segments with indices 0 and 1. -/
def twoPlainSegs : List Segment :=
  [{ url := "https://s/a.ts".toList, index := 0, encryption := none,
     seqId := some 5, isInitSegment := false },
   { url := "https://s/b.ts".toList, index := 1, encryption := none,
     seqId := some 6, isInitSegment := false }]

/-- C4: `sequenceToIV` is a pure function of the sequence number; for every
non-negative `n` (below `2 ^ 64`, the range a 64-bit encoding represents)
it returns exactly 16 bytes whose bytes 8-15 are the big-endian 64-bit
encoding of `n` — witnessed by the fact that they decode back to `n` —
and whose bytes 0-7 are zero. -/
theorem sequenceToIV_spec (n : Nat) (h : n < 2 ^ 64) :
    (sequenceToIV n).length = 16 ∧
    (sequenceToIV n).take 8 = List.replicate 8 0 ∧
    (sequenceToIV n).drop 8 = beBytes64 n ∧
    (beBytes64 n).foldl (fun a b => a * 256 + b) 0 = n := by
  have h2 : ((2 : Int) ^ 64) = 18446744073709551616 := by norm_num
  have hlt : n < 18446744073709551616 := by
    have : (2 : Nat) ^ 64 = 18446744073709551616 := by norm_num
    omega
  have h64 : (((n : Int)) % ((2 : Int) ^ 64)).toNat = n := by
    rw [h2]; omega
  refine ⟨?_, ?_, ?_, ?_⟩
  · unfold sequenceToIV
    rw [h64]
    rfl
  · unfold sequenceToIV
    rw [h64]
    rfl
  · unfold sequenceToIV
    rw [h64]
    rfl
  · simp only [beBytes64, List.foldl]
    have e56 : (2 : Nat) ^ 56 = 72057594037927936 := by norm_num
    have e48 : (2 : Nat) ^ 48 = 281474976710656 := by norm_num
    have e40 : (2 : Nat) ^ 40 = 1099511627776 := by norm_num
    have e32 : (2 : Nat) ^ 32 = 4294967296 := by norm_num
    have e24 : (2 : Nat) ^ 24 = 16777216 := by norm_num
    have e16 : (2 : Nat) ^ 16 = 65536 := by norm_num
    have e8 : (2 : Nat) ^ 8 = 256 := by norm_num
    rw [e56, e48, e40, e32, e24, e16, e8]
    omega

/-- Witness for C4 at `n = 7`: the hypothesis holds and the derived IV is
the 16-byte value with big-endian 7 in its low eight bytes. -/
theorem sequenceToIV_spec_witness :
    7 < 2 ^ 64 ∧
      ((sequenceToIV 7).length = 16 ∧
       (sequenceToIV 7).take 8 = List.replicate 8 0 ∧
       (sequenceToIV 7).drop 8 = beBytes64 7 ∧
       (beBytes64 7).foldl (fun a b => a * 256 + b) 0 = 7) :=
  ⟨by norm_num, sequenceToIV_spec 7 (by norm_num)⟩

/-- C7: any manifest text that contains the multi-rendition marker
`#EXT-X-STREAM-INF` — the source checks raw substring containment, so in
particular any text containing it as a line — is rejected with
`NotVariantPlaylist`, regardless of any other content. -/
theorem parseManifest_master_rejected (url text : List Char)
    (h : containsSub "#EXT-X-STREAM-INF".toList text = true) :
    parseManifest url text = .error .NotVariantPlaylist := by
  unfold parseManifest
  rw [h]
  simp

/-- Witness for C7: a concrete two-rendition master playlist is rejected. -/
theorem parseManifest_master_rejected_witness :
    containsSub "#EXT-X-STREAM-INF".toList
        "#EXTM3U\n#EXT-X-STREAM-INF:BANDWIDTH=800000\nlow.m3u8\n".toList = true ∧
      parseManifest "https://cdn.example/master.m3u8".toList
          "#EXTM3U\n#EXT-X-STREAM-INF:BANDWIDTH=800000\nlow.m3u8\n".toList =
        .error .NotVariantPlaylist :=
  ⟨by decide, parseManifest_master_rejected _ _ (by decide)⟩

/-- C5: the scenario manifest parses, against its playlist URL, to exactly
two plaintext descriptors with the resolved URLs, sequence ids 100 and
101, and metadata with `estimatedDurationSeconds = 2 × 10 = 20`. -/
theorem parseManifest_scenario :
    parseManifest "https://cdn.example/path/playlist.m3u8".toList
        "#EXTM3U\n#EXT-X-TARGETDURATION:10\n#EXT-X-MEDIA-SEQUENCE:100\nseg0.ts\nseg1.ts\n".toList =
      .ok ([{ url := "https://cdn.example/path/seg0.ts".toList, index := 0, encryption := none,
              seqId := some 100, isInitSegment := false },
            { url := "https://cdn.example/path/seg1.ts".toList, index := 1, encryption := none,
              seqId := some 101, isInitSegment := false }],
           { duration := some 20, segmentCount := 2, targetDuration := some 10,
             isEncrypted := false }) := by
  have hc : containsSub "#EXT-X-STREAM-INF".toList
      "#EXTM3U\n#EXT-X-TARGETDURATION:10\n#EXT-X-MEDIA-SEQUENCE:100\nseg0.ts\nseg1.ts\n".toList =
      false := by decide
  have hst : parseLines "https://cdn.example/path/playlist.m3u8".toList initialPState
      (splitOnChar '\n'
        "#EXTM3U\n#EXT-X-TARGETDURATION:10\n#EXT-X-MEDIA-SEQUENCE:100\nseg0.ts\nseg1.ts\n".toList) =
      { segments := [{ url := "https://cdn.example/path/seg0.ts".toList, index := 0,
                       encryption := none, seqId := some 100, isInitSegment := false },
                     { url := "https://cdn.example/path/seg1.ts".toList, index := 1,
                       encryption := none, seqId := some 101, isInitSegment := false }],
        targetDuration := some 10, mediaSequence := some 100, currentKey := none,
        isEncrypted := false, segmentIndex := 2 } := by rfl
  unfold parseManifest
  rw [hc, hst]
  norm_num

/-- Writing the bytes of `b` at the seam between a finished prefix and a
scratch suffix replaces the start of the suffix byte by byte. -/
theorem writeBytesAt_seam (b : List Nat) :
    ∀ (done rest : List Nat), b.length ≤ rest.length →
      writeBytesAt (done ++ rest) done.length b = (done ++ b) ++ rest.drop b.length := by
  induction b with
  | nil => intro done rest _; simp [writeBytesAt]
  | cons x xs ih =>
    intro done rest h
    match rest with
    | [] => simp at h
    | r :: rs =>
      have h1 : (done ++ r :: rs).set done.length x = (done ++ [x]) ++ rs := by
        rw [List.set_append_right _ _ (Nat.le_refl _)]
        simp
      have h2 : xs.length ≤ rs.length := by
        simpa using h
      calc writeBytesAt (done ++ r :: rs) done.length (x :: xs)
          = writeBytesAt ((done ++ r :: rs).set done.length x) (done.length + 1) xs := rfl
        _ = writeBytesAt ((done ++ [x]) ++ rs) ((done ++ [x]).length) xs := by
              rw [h1]; simp
        _ = (((done ++ [x]) ++ xs) ++ rs.drop xs.length) := ih (done ++ [x]) rs h2
        _ = (done ++ x :: xs) ++ (r :: rs).drop (x :: xs).length := by simp

/-- The copy loop of the stitcher, run over a zero scratch area of exactly
the total remaining length, appends the buffers in order. -/
theorem stitchLoop_spec (bufs : List (List Nat)) :
    ∀ done : List Nat,
      stitchLoop bufs (done ++ List.replicate ((bufs.map List.length).sum) 0) done.length =
        done ++ bufs.flatten := by
  induction bufs with
  | nil => intro done; simp [stitchLoop]
  | cons b bs ih =>
    intro done
    have hrep : List.replicate ((List.map List.length (b :: bs)).sum) (0 : Nat) =
        List.replicate b.length 0 ++ List.replicate ((List.map List.length bs).sum) 0 := by
      rw [← List.replicate_add]
      simp
    have hw := writeBytesAt_seam b done
      (List.replicate b.length 0 ++ List.replicate ((List.map List.length bs).sum) 0)
      (by simp)
    have hdrop :
        (List.replicate b.length (0 : Nat) ++
            List.replicate ((List.map List.length bs).sum) 0).drop b.length =
          List.replicate ((List.map List.length bs).sum) 0 := by
      rw [List.drop_append_of_le_length (by simp)]
      simp
    calc stitchLoop (b :: bs) (done ++ List.replicate ((List.map List.length (b :: bs)).sum) 0)
          done.length
        = stitchLoop bs
            (writeBytesAt (done ++ List.replicate ((List.map List.length (b :: bs)).sum) 0)
              done.length b) (done.length + b.length) := rfl
      _ = stitchLoop bs ((done ++ b) ++ List.replicate ((List.map List.length bs).sum) 0)
            ((done ++ b).length) := by
            rw [hrep, hw, hdrop]
            simp
      _ = (done ++ b) ++ bs.flatten := ih (done ++ b)
      _ = done ++ (b :: bs).flatten := by simp

/-- The running-total fold of the stitcher computes the sum of lengths. -/
theorem foldl_add_length (bufs : List (List Nat)) :
    ∀ init : Nat, bufs.foldl (fun acc b => acc + b.length) init =
      init + (bufs.map List.length).sum := by
  induction bufs with
  | nil => intro init; simp
  | cons b bs ih =>
    intro init
    simp only [List.foldl_cons, List.map_cons, List.sum_cons]
    rw [ih]
    omega

/-- Stores to pairwise-distinct indices commute: any permutation of the
same set of writes folds to the same array. -/
theorem foldl_set_perm {ws ws' : List (Nat × List Nat)} (h : ws.Perm ws') :
    (ws.map Prod.fst).Nodup → ∀ init : List (Option (List Nat)),
      ws.foldl (fun arr w => arr.set w.1 (some w.2)) init =
        ws'.foldl (fun arr w => arr.set w.1 (some w.2)) init := by
  induction h with
  | nil => intro _ _; rfl
  | cons x _ ih =>
    intro hnd init
    simp only [List.map_cons, List.nodup_cons] at hnd
    simp only [List.foldl_cons]
    exact ih hnd.2 _
  | swap x y l =>
    intro hnd init
    simp only [List.map_cons, List.nodup_cons, List.mem_cons] at hnd
    have hxy : y.1 ≠ x.1 := fun e => hnd.1 (Or.inl e)
    simp only [List.foldl_cons]
    rw [List.set_comm _ _ init hxy]
  | trans h1 _ ih1 ih2 =>
    intro hnd init
    rw [ih1 hnd init]
    exact ih2 ((h1.map Prod.fst).nodup hnd) init

/-- C6: `stitchSegments` is a pure function that drops hole/empty entries
and concatenates the surviving buffers in ascending index order — it
equals the flat concatenation of the survivors, its length is the sum of
their lengths, and (order invariance) any permutation of the same
per-index stores yields a results array with byte-identical stitched
output. -/
theorem stitchSegments_spec (buffers : List (Option (List Nat))) (n : Nat)
    (ws ws' : List (Nat × List Nat)) (hperm : ws.Perm ws')
    (hnodup : (ws.map Prod.fst).Nodup) :
    stitchSegments buffers = (survivors buffers).flatten ∧
    (stitchSegments buffers).length = ((survivors buffers).map List.length).sum ∧
    stitchSegments (buildResults n ws) = stitchSegments (buildResults n ws') := by
  have h1 : ∀ bufs : List (Option (List Nat)),
      stitchSegments bufs = (survivors bufs).flatten := by
    intro bufs
    show stitchLoop (survivors bufs)
        (List.replicate ((survivors bufs).foldl (fun acc b => acc + b.length) 0) 0) 0 =
      (survivors bufs).flatten
    rw [foldl_add_length]
    simpa using stitchLoop_spec (survivors bufs) []
  refine ⟨h1 buffers, ?_, ?_⟩
  · rw [h1 buffers]
    exact List.length_flatten _
  · have hbuild : buildResults n ws = buildResults n ws' :=
      foldl_set_perm hperm hnodup _
    rw [hbuild]

/-- Witness for C6: a concrete buffer list with a hole and an empty entry,
and a two-store write set applied in both orders. -/
theorem stitchSegments_spec_witness :
    ([(0, [9, 9]), (2, [7])] : List (Nat × List Nat)).Perm [(2, [7]), (0, [9, 9])] ∧
    (([(0, [9, 9]), (2, [7])] : List (Nat × List Nat)).map Prod.fst).Nodup ∧
    (stitchSegments [some [1, 2], none, some [], some [3]] =
        (survivors [some [1, 2], none, some [], some [3]]).flatten ∧
      (stitchSegments [some [1, 2], none, some [], some [3]]).length =
        ((survivors [some [1, 2], none, some [], some [3]]).map List.length).sum ∧
      stitchSegments (buildResults 3 [(0, [9, 9]), (2, [7])]) =
        stitchSegments (buildResults 3 [(2, [7]), (0, [9, 9])])) := by
  have hp : ([(0, [9, 9]), (2, [7])] : List (Nat × List Nat)).Perm [(2, [7]), (0, [9, 9])] :=
    List.Perm.swap _ _ _
  exact ⟨hp, by decide,
    stitchSegments_spec [some [1, 2], none, some [], some [3]] 3 _ _ hp (by decide)⟩

/-- A line with one prefix cannot also have an incomparable prefix. -/
theorem prefix_incomparable {p q l : List Char}
    (hq : q.isPrefixOf l = true) (h1 : q.isPrefixOf p = false)
    (h2 : p.isPrefixOf q = false) : p.isPrefixOf l = false := by
  cases hpb : p.isPrefixOf l with
  | false => rfl
  | true =>
    exfalso
    rcases List.prefix_or_prefix_of_prefix (List.isPrefixOf_iff_prefix.mp hpb)
        (List.isPrefixOf_iff_prefix.mp hq) with hh | hh
    · rw [List.isPrefixOf_iff_prefix.mpr hh] at h2
      simp at h2
    · rw [List.isPrefixOf_iff_prefix.mpr hh] at h1
      simp at h1

/-- A line with a non-empty prefix is non-empty. -/
theorem isEmpty_false_of_prefix {q l : List Char} (hq : q.isPrefixOf l = true)
    (hne : q ≠ []) : l.isEmpty = false := by
  cases l with
  | nil =>
    cases q with
    | nil => exact absurd rfl hne
    | cons a as => simp [List.isPrefixOf] at hq
  | cons a as => rfl

/-- The target-duration branch never touches key, flag or segments. -/
theorem tdStep_fields (s : PState) (line : List Char) :
    (tdStep s line).currentKey = s.currentKey ∧
    (tdStep s line).isEncrypted = s.isEncrypted ∧
    (tdStep s line).segments = s.segments := by
  unfold tdStep
  split <;> exact ⟨rfl, rfl, rfl⟩

/-- The media-sequence branch never touches key, flag or segments. -/
theorem msStep_fields (s : PState) (line : List Char) :
    (msStep s line).currentKey = s.currentKey ∧
    (msStep s line).isEncrypted = s.isEncrypted ∧
    (msStep s line).segments = s.segments := by
  unfold msStep
  split <;> exact ⟨rfl, rfl, rfl⟩

/-- On a key-directive line, the key branch installs `keyDirectiveKey` and
ors the encryption flag with its success. -/
theorem keyStep_of_key (url : List Char) (s : PState) (line : List Char)
    (h : "#EXT-X-KEY:".toList.isPrefixOf line = true) :
    keyStep url s line =
      { s with currentKey := keyDirectiveKey url line,
               isEncrypted := s.isEncrypted || (keyDirectiveKey url line).isSome } := by
  unfold keyStep
  rw [h]
  rfl

/-- On any other line, the key branch is a no-op. -/
theorem keyStep_of_not_key (url : List Char) (s : PState) (line : List Char)
    (h : "#EXT-X-KEY:".toList.isPrefixOf line = false) :
    keyStep url s line = s := by
  unfold keyStep
  rw [h]
  rfl

/-- The init-segment branch never touches key or flag, and any descriptor
it emits carries the current key. -/
theorem mapStep_fields (url : List Char) (s : PState) (line : List Char) :
    (mapStep url s line).currentKey = s.currentKey ∧
    (mapStep url s line).isEncrypted = s.isEncrypted ∧
    ∀ seg ∈ (mapStep url s line).segments,
      seg ∈ s.segments ∨ seg.encryption = s.currentKey := by
  unfold mapStep
  simp only []
  split
  · split
    · refine ⟨rfl, rfl, fun seg hs => ?_⟩
      rcases List.mem_append.mp hs with hh | hh
      · exact Or.inl hh
      · rw [List.mem_singleton.mp hh]
        exact Or.inr rfl
    · exact ⟨rfl, rfl, fun seg hs => Or.inl hs⟩
  · exact ⟨rfl, rfl, fun seg hs => Or.inl hs⟩

/-- On a line that is not a MAP directive, the init-segment branch is a
no-op. -/
theorem mapStep_of_not_map (url : List Char) (s : PState) (line : List Char)
    (h : "#EXT-X-MAP:".toList.isPrefixOf line = false) :
    mapStep url s line = s := by
  unfold mapStep
  rw [h]
  rfl

/-- A MAP directive without a truthy URI attribute emits nothing. -/
theorem mapStep_of_not_emit (url : List Char) (s : PState) (line : List Char)
    (h : emitsInitSegment line = false) :
    (mapStep url s line).segments = s.segments := by
  unfold emitsInitSegment at h
  unfold mapStep
  simp only []
  cases hm : ("#EXT-X-MAP:".toList.isPrefixOf line) with
  | false => rfl
  | true =>
    rw [hm] at h
    simp only [Bool.true_and] at h
    rw [h]
    rfl

/-- The segment-URI branch never touches key or flag, and any descriptor
it emits carries the current key. -/
theorem uriStep_fields (url : List Char) (s : PState) (line : List Char) :
    (uriStep url s line).currentKey = s.currentKey ∧
    (uriStep url s line).isEncrypted = s.isEncrypted ∧
    ∀ seg ∈ (uriStep url s line).segments,
      seg ∈ s.segments ∨ seg.encryption = s.currentKey := by
  unfold uriStep
  split
  · refine ⟨rfl, rfl, fun seg hs => ?_⟩
    rcases List.mem_append.mp hs with hh | hh
    · exact Or.inl hh
    · rw [List.mem_singleton.mp hh]
      exact Or.inr rfl
  · exact ⟨rfl, rfl, fun seg hs => Or.inl hs⟩

/-- On a comment/directive line, the segment-URI branch is a no-op. -/
theorem uriStep_of_hash (url : List Char) (s : PState) (line : List Char)
    (h : "#".toList.isPrefixOf line = true) :
    uriStep url s line = s := by
  unfold uriStep
  rw [h]
  rfl

/-- A blank line leaves the parser state unchanged. -/
theorem parseLine_of_empty (url : List Char) (s : PState) (raw : List Char)
    (h : (trimChars raw).isEmpty = true) : parseLine url s raw = s := by
  unfold parseLine
  simp only []
  rw [h]
  rfl

/-- A non-blank line runs the five branch steps in source order. -/
theorem parseLine_of_not_empty (url : List Char) (s : PState) (raw : List Char)
    (h : (trimChars raw).isEmpty = false) :
    parseLine url s raw =
      uriStep url
        (mapStep url (keyStep url (msStep (tdStep s (trimChars raw)) (trimChars raw))
          (trimChars raw)) (trimChars raw)) (trimChars raw) := by
  unfold parseLine
  simp only []
  rw [h]
  rfl

/-- Effect of a key-directive line on the parser state: it installs
exactly `keyDirectiveKey`, emits no descriptor, and turns `isEncrypted`
on exactly when the installed key is non-`NONE`. -/
theorem parseLine_key (url : List Char) (s : PState) (raw : List Char)
    (h : isKeyLine raw = true) :
    (parseLine url s raw).currentKey = keyDirectiveKey url (trimChars raw) ∧
    (parseLine url s raw).segments = s.segments ∧
    (parseLine url s raw).isEncrypted =
      (s.isEncrypted || (keyDirectiveKey url (trimChars raw)).isSome) := by
  unfold isKeyLine at h
  have e0 : (trimChars raw).isEmpty = false := isEmpty_false_of_prefix h (by decide)
  have e4 : "#EXT-X-MAP:".toList.isPrefixOf (trimChars raw) = false :=
    prefix_incomparable h (by decide) (by decide)
  have e5 : "#".toList.isPrefixOf (trimChars raw) = true :=
    List.isPrefixOf_iff_prefix.mpr
      (List.IsPrefix.trans (by decide) (List.isPrefixOf_iff_prefix.mp h))
  have hA := tdStep_fields s (trimChars raw)
  have hB := msStep_fields (tdStep s (trimChars raw)) (trimChars raw)
  rw [parseLine_of_not_empty _ _ _ e0, uriStep_of_hash _ _ _ e5,
    mapStep_of_not_map _ _ _ e4, keyStep_of_key _ _ _ h]
  refine ⟨rfl, ?_, ?_⟩
  · dsimp only
    rw [hB.2.2, hA.2.2]
  · dsimp only
    rw [hB.2.1, hA.2.1]

/-- Effect of any non-key line on the parser state: the current key and
the encryption flag are untouched, and every descriptor it emits carries
the current key as its encryption info. -/
theorem parseLine_not_key (url : List Char) (s : PState) (raw : List Char)
    (h : isKeyLine raw = false) :
    (parseLine url s raw).currentKey = s.currentKey ∧
    (parseLine url s raw).isEncrypted = s.isEncrypted ∧
    ∀ seg ∈ (parseLine url s raw).segments,
      seg ∈ s.segments ∨ seg.encryption = s.currentKey := by
  unfold isKeyLine at h
  have hA := tdStep_fields s (trimChars raw)
  have hB := msStep_fields (tdStep s (trimChars raw)) (trimChars raw)
  cases he : (trimChars raw).isEmpty with
  | true =>
    rw [parseLine_of_empty _ _ _ he]
    exact ⟨rfl, rfl, fun seg hs => Or.inl hs⟩
  | false =>
    rw [parseLine_of_not_empty _ _ _ he, keyStep_of_not_key _ _ _ h]
    have hD := mapStep_fields url (msStep (tdStep s (trimChars raw)) (trimChars raw))
      (trimChars raw)
    have hU := uriStep_fields url
      (mapStep url (msStep (tdStep s (trimChars raw)) (trimChars raw)) (trimChars raw))
      (trimChars raw)
    refine ⟨?_, ?_, ?_⟩
    · rw [hU.1, hD.1, hB.1, hA.1]
    · rw [hU.2.1, hD.2.1, hB.2.1, hA.2.1]
    · intro seg hs
      rcases hU.2.2 seg hs with h1 | h1
      · rcases hD.2.2 seg h1 with h2 | h2
        · rw [hB.2.2, hA.2.2] at h2
          exact Or.inl h2
        · rw [hB.1, hA.1] at h2
          exact Or.inr h2
      · rw [hD.1, hB.1, hA.1] at h1
        exact Or.inr h1

/-- Folding the line parser over key-directive-free lines preserves the
current key and tags every newly emitted descriptor with it. -/
theorem parseLines_no_key (url : List Char) (ls : List (List Char)) :
    ∀ s : PState, (∀ l ∈ ls, isKeyLine l = false) →
      (parseLines url s ls).currentKey = s.currentKey ∧
      (parseLines url s ls).isEncrypted = s.isEncrypted ∧
      ∀ seg ∈ (parseLines url s ls).segments,
        seg ∈ s.segments ∨ seg.encryption = s.currentKey := by
  induction ls with
  | nil => exact fun s _ => ⟨rfl, rfl, fun seg hs => Or.inl hs⟩
  | cons l ls ih =>
    intro s hl
    have hhead : isKeyLine l = false := hl l (List.mem_cons_self l ls)
    have htail : ∀ l2 ∈ ls, isKeyLine l2 = false :=
      fun l2 h2 => hl l2 (List.mem_cons_of_mem l h2)
    have hstep := parseLine_not_key url s l hhead
    have hrest := ih (parseLine url s l) htail
    have hfold : parseLines url s (l :: ls) = parseLines url (parseLine url s l) ls := rfl
    rw [hfold]
    refine ⟨?_, ?_, ?_⟩
    · rw [hrest.1, hstep.1]
    · rw [hrest.2.1, hstep.2.1]
    · intro seg hs
      rcases hrest.2.2 seg hs with h1 | h1
      · rcases hstep.2.2 seg h1 with h2 | h2
        · exact Or.inl h2
        · exact Or.inr h2
      · rw [hstep.1] at h1
        exact Or.inr h1

/-- C8 (key carry-forward): after a key-directive line installs
`keyDirectiveKey` — `some` EncryptionData with the directive's method,
resolved key URI and decoded IV when METHOD is truthy and non-`NONE`,
`none` when the directive clears the key — every descriptor emitted by
the following key-directive-free lines carries exactly that encryption
info, until the next key directive. -/
theorem key_carry_forward (url keyRaw : List Char) (s : PState) (ls : List (List Char))
    (hkey : isKeyLine keyRaw = true) (hnone : ∀ l ∈ ls, isKeyLine l = false) :
    (parseLines url (parseLine url s keyRaw) ls).currentKey =
      keyDirectiveKey url (trimChars keyRaw) ∧
    ∀ seg ∈ (parseLines url (parseLine url s keyRaw) ls).segments,
      seg ∈ s.segments ∨ seg.encryption = keyDirectiveKey url (trimChars keyRaw) := by
  have hk := parseLine_key url s keyRaw hkey
  have hrest := parseLines_no_key url ls (parseLine url s keyRaw) hnone
  refine ⟨?_, ?_⟩
  · rw [hrest.1, hk.1]
  · intro seg hs
    rcases hrest.2.2 seg hs with h1 | h1
    · rw [hk.2.1] at h1
      exact Or.inl h1
    · rw [hk.1] at h1
      exact Or.inr h1

/-- Witness for C8: a concrete AES-128 key directive followed by two
segment lines; both descriptors carry the resolved key URI and decoded
IV. -/
theorem key_carry_forward_witness :
    isKeyLine "#EXT-X-KEY:METHOD=AES-128,URI=\x22k.key\x22,IV=0x0102".toList = true ∧
    (∀ l ∈ ["seg1.ts".toList, "seg2.ts".toList], isKeyLine l = false) ∧
    ((parseLines "https://cdn.example/path/pl.m3u8".toList
        (parseLine "https://cdn.example/path/pl.m3u8".toList initialPState
          "#EXT-X-KEY:METHOD=AES-128,URI=\x22k.key\x22,IV=0x0102".toList)
        ["seg1.ts".toList, "seg2.ts".toList]).currentKey =
      keyDirectiveKey "https://cdn.example/path/pl.m3u8".toList
        (trimChars "#EXT-X-KEY:METHOD=AES-128,URI=\x22k.key\x22,IV=0x0102".toList) ∧
     ∀ seg ∈ (parseLines "https://cdn.example/path/pl.m3u8".toList
        (parseLine "https://cdn.example/path/pl.m3u8".toList initialPState
          "#EXT-X-KEY:METHOD=AES-128,URI=\x22k.key\x22,IV=0x0102".toList)
        ["seg1.ts".toList, "seg2.ts".toList]).segments,
       seg ∈ initialPState.segments ∨
         seg.encryption = keyDirectiveKey "https://cdn.example/path/pl.m3u8".toList
           (trimChars "#EXT-X-KEY:METHOD=AES-128,URI=\x22k.key\x22,IV=0x0102".toList)) :=
  ⟨by decide, by decide,
    key_carry_forward "https://cdn.example/path/pl.m3u8".toList
      "#EXT-X-KEY:METHOD=AES-128,URI=\x22k.key\x22,IV=0x0102".toList initialPState
      ["seg1.ts".toList, "seg2.ts".toList] (by decide) (by decide)⟩

/-- The key branch never touches the segment list. -/
theorem keyStep_segments (url : List Char) (s : PState) (line : List Char) :
    (keyStep url s line).segments = s.segments := by
  unfold keyStep
  split <;> rfl

/-- A blank or directive line that is not an emitting MAP directive adds
no descriptor. -/
theorem parseLine_segments_of_directive (url : List Char) (s : PState) (raw : List Char)
    (h : trimChars raw = [] ∨ ("#".toList.isPrefixOf (trimChars raw) = true ∧
      emitsInitSegment (trimChars raw) = false)) :
    (parseLine url s raw).segments = s.segments := by
  rcases h with h | ⟨hh, hmap⟩
  · have he : (trimChars raw).isEmpty = true := by rw [h]; rfl
    rw [parseLine_of_empty _ _ _ he]
  · have he : (trimChars raw).isEmpty = false := isEmpty_false_of_prefix hh (by decide)
    rw [parseLine_of_not_empty _ _ _ he, uriStep_of_hash _ _ _ hh,
      mapStep_of_not_emit _ _ _ hmap, keyStep_segments,
      (msStep_fields _ _).2.2, (tdStep_fields _ _).2.2]

/-- Folding the line parser over blank and non-emitting directive lines
leaves the segment list unchanged. -/
theorem parseLines_segments_of_directives (url : List Char) (ls : List (List Char)) :
    ∀ s : PState,
      (∀ l ∈ ls, trimChars l = [] ∨ ("#".toList.isPrefixOf (trimChars l) = true ∧
        emitsInitSegment (trimChars l) = false)) →
      (parseLines url s ls).segments = s.segments := by
  induction ls with
  | nil => exact fun s _ => rfl
  | cons l ls ih =>
    intro s hl
    have hfold : parseLines url s (l :: ls) = parseLines url (parseLine url s l) ls := rfl
    rw [hfold, ih _ (fun l2 h2 => hl l2 (List.mem_cons_of_mem l h2)),
      parseLine_segments_of_directive url s l (hl l (List.mem_cons_self l ls))]

/-- Counterexample to C9 as stated: a manifest consisting of the single
directive line `#EXT-X-MAP:URI="init.mp4"` — every line starts with `#`
and there is no segment-URI line — parses successfully (the MAP directive
emits an init-segment descriptor), so it does not fail with
`NoSegmentsFound`. -/
theorem noSegments_counterexample :
    (∀ l ∈ splitOnChar '\n' "#EXT-X-MAP:URI=\x22init.mp4\x22".toList,
        trimChars l = [] ∨ "#".toList.isPrefixOf (trimChars l) = true) ∧
    parseManifest "https://cdn.example/path/pl.m3u8".toList
        "#EXT-X-MAP:URI=\x22init.mp4\x22".toList ≠
      Except.error ParseError.NoSegmentsFound := by
  constructor
  · decide
  · intro hc
    have hok : parseManifest "https://cdn.example/path/pl.m3u8".toList
        "#EXT-X-MAP:URI=\x22init.mp4\x22".toList =
        Except.ok ((parseLines "https://cdn.example/path/pl.m3u8".toList initialPState
            (splitOnChar '\n' "#EXT-X-MAP:URI=\x22init.mp4\x22".toList)).segments,
          { segmentCount := 1, targetDuration := some 0,
            duration := (some 0).map
              (fun q => ((1 : Nat) : Rat) * q),
            isEncrypted := false }) := rfl
    rw [hok] at hc
    exact Except.noConfusion hc

/-- C9 amended: a manifest free of the master-playlist marker whose lines
are all blank or `#`-directives, none of which is a MAP directive with a
truthy URI attribute (those emit init-segment descriptors), fails with
`NoSegmentsFound`. -/
theorem parseManifest_noSegments (url text : List Char)
    (hmark : containsSub "#EXT-X-STREAM-INF".toList text = false)
    (hlines : ∀ l ∈ splitOnChar '\n' text,
      trimChars l = [] ∨ ("#".toList.isPrefixOf (trimChars l) = true ∧
        emitsInitSegment (trimChars l) = false)) :
    parseManifest url text = .error .NoSegmentsFound := by
  have hseg : (parseLines url initialPState (splitOnChar '\n' text)).segments = [] :=
    parseLines_segments_of_directives url _ initialPState hlines
  unfold parseManifest
  rw [hmark]
  simp [hseg]

/-- Witness for amended C9: a directive-only manifest with no MAP line. -/
theorem parseManifest_noSegments_witness :
    containsSub "#EXT-X-STREAM-INF".toList
        "#EXTM3U\n#EXT-X-TARGETDURATION:10".toList = false ∧
    (∀ l ∈ splitOnChar '\n' "#EXTM3U\n#EXT-X-TARGETDURATION:10".toList,
        trimChars l = [] ∨ ("#".toList.isPrefixOf (trimChars l) = true ∧
          emitsInitSegment (trimChars l) = false)) ∧
    parseManifest "https://cdn.example/pl.m3u8".toList
        "#EXTM3U\n#EXT-X-TARGETDURATION:10".toList =
      .error .NoSegmentsFound :=
  ⟨by decide, by decide, parseManifest_noSegments _ _ (by decide) (by decide)⟩

/-- The installed key is `some` exactly when the directive's METHOD
attribute is truthy and not `NONE`. -/
theorem keyDirectiveKey_isSome (url line : List Char) :
    (keyDirectiveKey url line).isSome =
      (jsTruthy (attrGet (parseAttributes (line.drop 11)) "METHOD".toList) &&
        !((attrGet (parseAttributes (line.drop 11)) "METHOD".toList) ==
          some "NONE".toList)) := by
  unfold keyDirectiveKey
  simp only []
  cases hc : (jsTruthy (attrGet (parseAttributes (line.drop 11)) "METHOD".toList) &&
      !((attrGet (parseAttributes (line.drop 11)) "METHOD".toList) ==
        some "NONE".toList)) with
  | true => rfl
  | false => rfl

/-- One line turns the encryption flag on exactly when it is a key
directive with a truthy, non-`NONE` METHOD attribute; the flag is never
turned off. -/
theorem parseLine_isEncrypted (url : List Char) (s : PState) (raw : List Char) :
    (parseLine url s raw).isEncrypted = (s.isEncrypted || keyLineSetsEncryption raw) := by
  cases hk : isKeyLine raw with
  | true =>
    have h := parseLine_key url s raw hk
    rw [h.2.2, keyDirectiveKey_isSome]
    unfold keyLineSetsEncryption
    rw [hk]
    simp only [Bool.true_and]
  | false =>
    have h := parseLine_not_key url s raw hk
    rw [h.2.1]
    unfold keyLineSetsEncryption
    rw [hk]
    simp

/-- Folding the line parser ors the encryption flag over all lines. -/
theorem parseLines_isEncrypted (url : List Char) (ls : List (List Char)) :
    ∀ s : PState, (parseLines url s ls).isEncrypted =
      (s.isEncrypted || ls.any (fun l => keyLineSetsEncryption l)) := by
  induction ls with
  | nil => intro s; simp [parseLines]
  | cons l ls ih =>
    intro s
    have hfold : parseLines url s (l :: ls) = parseLines url (parseLine url s l) ls := rfl
    rw [hfold, ih, parseLine_isEncrypted]
    simp [Bool.or_assoc]

/-- C10: for every successfully parsed manifest, the metadata's
`isEncrypted` flag is true exactly when some line of the manifest is a
key directive whose METHOD attribute is present (truthy) and not `NONE` —
in particular the flag stays true when a later `METHOD=NONE` directive
clears the key, even if every emitted descriptor is plaintext. -/
theorem isEncrypted_iff (url text : List Char) (segs : List Segment) (info : StreamInfo)
    (h : parseManifest url text = .ok (segs, info)) :
    info.isEncrypted = true ↔
      ∃ l ∈ splitOnChar '\n' text, keyLineSetsEncryption l = true := by
  unfold parseManifest at h
  cases hm : containsSub "#EXT-X-STREAM-INF".toList text with
  | true =>
    rw [hm] at h
    simp at h
  | false =>
    rw [hm] at h
    rw [if_neg (show ¬(false = true) by simp)] at h
    by_cases hz : (parseLines url initialPState (splitOnChar '\n' text)).segments.length = 0
    · rw [if_pos hz] at h
      simp at h
    · rw [if_neg hz] at h
      rw [Except.ok.injEq, Prod.mk.injEq] at h
      obtain ⟨hsegs, hinfo⟩ := h
      have hflag : info.isEncrypted =
          (parseLines url initialPState (splitOnChar '\n' text)).isEncrypted := by
        rw [← hinfo]
      rw [hflag, parseLines_isEncrypted]
      simp [initialPState, List.any_eq_true]

/-- Witness for C10: a manifest whose key directive is later cleared by
`METHOD=NONE` before the only segment line; the descriptor is plaintext
yet `isEncrypted` is true, and the characterisation holds. -/
theorem isEncrypted_iff_witness :
    parseManifest "https://cdn.example/path/pl.m3u8".toList
        "#EXT-X-KEY:METHOD=AES-128,URI=\x22k\x22\n#EXT-X-KEY:METHOD=NONE\ns.ts".toList =
      .ok ([{ url := "https://cdn.example/path/s.ts".toList, index := 0, encryption := none,
              seqId := some 0, isInitSegment := false }],
           { duration := some 0, segmentCount := 1, targetDuration := some 0,
             isEncrypted := true }) ∧
    (({ duration := some 0, segmentCount := 1, targetDuration := some 0,
        isEncrypted := true } : StreamInfo).isEncrypted = true ↔
      ∃ l ∈ splitOnChar '\n'
          "#EXT-X-KEY:METHOD=AES-128,URI=\x22k\x22\n#EXT-X-KEY:METHOD=NONE\ns.ts".toList,
        keyLineSetsEncryption l = true) := by
  have hst : parseLines "https://cdn.example/path/pl.m3u8".toList initialPState
      (splitOnChar '\n'
        "#EXT-X-KEY:METHOD=AES-128,URI=\x22k\x22\n#EXT-X-KEY:METHOD=NONE\ns.ts".toList) =
      { segments := [{ url := "https://cdn.example/path/s.ts".toList, index := 0,
                       encryption := none, seqId := some 0, isInitSegment := false }],
        targetDuration := some 0, mediaSequence := some 0, currentKey := none,
        isEncrypted := true, segmentIndex := 1 } := by rfl
  have h : parseManifest "https://cdn.example/path/pl.m3u8".toList
      "#EXT-X-KEY:METHOD=AES-128,URI=\x22k\x22\n#EXT-X-KEY:METHOD=NONE\ns.ts".toList =
      .ok ([{ url := "https://cdn.example/path/s.ts".toList, index := 0, encryption := none,
              seqId := some 0, isInitSegment := false }],
           { duration := some 0, segmentCount := 1, targetDuration := some 0,
             isEncrypted := true }) := by
    unfold parseManifest
    rw [show containsSub "#EXT-X-STREAM-INF".toList
        "#EXT-X-KEY:METHOD=AES-128,URI=\x22k\x22\n#EXT-X-KEY:METHOD=NONE\ns.ts".toList =
        false by decide, hst]
    norm_num
  exact ⟨h, isEncrypted_iff _ _ _ _ h⟩

/-- The batches of `downloadSegments` cover exactly the input segments in
order. -/
theorem chunks5_flatten : ∀ l : List Segment, (chunks5 l).flatten = l := by
  intro l
  induction l using chunks5.induct with
  | case1 => rfl
  | case2 a b c d e rest ih => simp [chunks5, ih]
  | case3 l h1 h2 => simp [chunks5]

/-- A batch of resolving tasks produces no rejection. -/
theorem runBatchGo_resolves (env : DlEnv) :
    ∀ (batch : List Segment) (res : List (Option (List Nat))),
      (∀ seg ∈ batch, taskResolves env seg = true) →
      (runBatchGo env batch res none).2 = none := by
  intro batch
  induction batch with
  | nil => intro res _; rfl
  | cons seg rest ih =>
    intro res hall
    have hseg := hall seg (List.mem_cons_self seg rest)
    have hrest := fun s2 h2 => hall s2 (List.mem_cons_of_mem seg h2)
    unfold taskResolves at hseg
    unfold runBatchGo
    cases hr : runTask env seg with
    | ok d => exact ih _ hrest
    | error e =>
      rw [hr] at hseg
      have hcatch : env.abortedAtCatch seg.index = true := hseg
      rw [hcatch]
      exact ih _ hrest

/-- If every task of every batch resolves and the signal is observed set
at some batch boundary, the loop fails with `Aborted`. -/
theorem dlGo_aborted (env : DlEnv) :
    ∀ (batches : List (List Segment)) (b : Nat) (res : List (Option (List Nat))),
      (∀ seg ∈ batches.flatten, taskResolves env seg = true) →
      (∃ k, k < batches.length ∧ env.abortedAtBatch (b + k) = true) →
      dlGo env b res batches = .error .Aborted := by
  intro batches
  induction batches with
  | nil =>
    intro b res _ hk
    obtain ⟨k, hk1, _⟩ := hk
    exact absurd hk1 (by simp)
  | cons batch rest ih =>
    intro b res hall hk
    unfold dlGo
    cases hab : env.abortedAtBatch b with
    | true => rfl
    | false =>
      have hbatch : ∀ seg ∈ batch, taskResolves env seg = true := by
        intro seg hs
        exact hall seg (by simp [List.mem_append, hs])
      have hrest : ∀ seg ∈ rest.flatten, taskResolves env seg = true := by
        intro seg hs
        exact hall seg (by simp [List.mem_append, hs])
      obtain ⟨k, hk1, hk2⟩ := hk
      have hkpos : k ≠ 0 := by
        intro h0
        rw [h0, Nat.add_zero] at hk2
        rw [hk2] at hab
        exact Bool.noConfusion hab
      obtain ⟨k1, rfl⟩ := Nat.exists_eq_succ_of_ne_zero hkpos
      have hsnd := runBatchGo_resolves env batch res hbatch
      rcases hrb : runBatchGo env batch res none with ⟨r1, e1⟩
      rw [hrb] at hsnd
      subst hsnd
      unfold runBatch
      rw [hrb]
      exact ih (b + 1) r1 hrest ⟨k1, by simpa using hk1, by
        have : b + 1 + k1 = b + (k1 + 1) := by omega
        rw [this]
        exact hk2⟩

/-- If every task resolves, the loop can only fail through the batch
boundary check, i.e. with `Aborted`. -/
theorem dlGo_error_aborted (env : DlEnv) :
    ∀ (batches : List (List Segment)) (b : Nat) (res : List (Option (List Nat))) (e : DlError),
      (∀ seg ∈ batches.flatten, taskResolves env seg = true) →
      dlGo env b res batches = .error e → e = .Aborted := by
  intro batches
  induction batches with
  | nil =>
    intro b res e _ hgo
    exact absurd hgo (by simp [dlGo])
  | cons batch rest ih =>
    intro b res e hall hgo
    unfold dlGo at hgo
    cases hab : env.abortedAtBatch b with
    | true =>
      rw [hab] at hgo
      simp at hgo
      exact hgo.symm
    | false =>
      rw [hab] at hgo
      simp only [Bool.false_eq_true, if_false] at hgo
      have hbatch : ∀ seg ∈ batch, taskResolves env seg = true := by
        intro seg hs
        exact hall seg (by simp [List.mem_append, hs])
      have hrest : ∀ seg ∈ rest.flatten, taskResolves env seg = true := by
        intro seg hs
        exact hall seg (by simp [List.mem_append, hs])
      have hsnd := runBatchGo_resolves env batch res hbatch
      rcases hrb : runBatchGo env batch res none with ⟨r1, e1⟩
      rw [hrb] at hsnd
      subst hsnd
      unfold runBatch at hgo
      rw [hrb] at hgo
      exact ih (b + 1) r1 e hrest hgo

/-- C2: when every per-task failure is suppressed by the abort signal (the
run's failures are collateral of cancellation), `downloadSegments`
observes cancellation at batch granularity: the signal is checked before
each batch of five, a signal observed set at any such check fails the
whole operation with `Aborted`, and no error other than `Aborted` can
surface. -/
theorem downloadSegments_cancellation (env : DlEnv) (segs : List Segment)
    (hsup : ∀ seg ∈ segs, taskResolves env seg = true) :
    (∀ b, b < (chunks5 segs).length → env.abortedAtBatch b = true →
      downloadSegments env segs = .error .Aborted) ∧
    (∀ e, downloadSegments env segs = .error e → e = .Aborted) := by
  have hall : ∀ seg ∈ (chunks5 segs).flatten, taskResolves env seg = true := by
    rw [chunks5_flatten]
    exact hsup
  constructor
  · intro b hb hset
    exact dlGo_aborted env (chunks5 segs) 0 _ hall ⟨b, hb, by simpa using hset⟩
  · intro e hgo
    exact dlGo_error_aborted env (chunks5 segs) 0 _ e hall hgo

/-- Witness for C2, which is exactly P6: twelve segments in batches of
five; the signal is observed set at the check before the second batch
(after the first batch completed), and the operation yields `Aborted` —
no buffers are returned at all. -/
theorem downloadSegments_cancellation_witness :
    (∀ seg ∈ p6Segs, taskResolves p6Env seg = true) ∧
    downloadSegments p6Env p6Segs = .error .Aborted :=
  ⟨by decide,
    (downloadSegments_cancellation p6Env p6Segs (by decide)).1 1 (by decide) (by decide)⟩

/-- Counterexample to C1 as stated: a segment tagged `SAMPLE-AES` (with a
key URI, in an environment where any key fetch or decryption attempt
would fail) is not passed through the decrypt path at all — its raw
fetched bytes are stored and the download succeeds, instead of surfacing
`DecryptionFailed`. -/
theorem unsupported_method_counterexample :
    downloadSegments sampleAesEnv [sampleAesSeg] = .ok [some [1, 2, 3]] ∧
    downloadSegments sampleAesEnv [sampleAesSeg] ≠ .error .DecryptionFailed := by
  decide

/-- C1 amended: a segment whose encryption method is non-`NONE` but not
`AES-128` skips the decrypt path entirely — the condition guarding
`decryptSegment` tests for the literal `AES-128` — so its raw fetched
bytes are stored at its index and no error (in particular no
`DecryptionFailed`) is raised for it. -/
theorem unsupported_method_skips_decrypt (env : DlEnv) (enc : EncryptionData)
    (u : List Char) (si : Option Int) (bytes : List Nat)
    (hm : enc.method ≠ "AES-128".toList) (_hmn : enc.method ≠ "NONE".toList)
    (hf : env.fetchSeg u = some bytes) (hb : env.abortedAtBatch 0 = false) :
    downloadSegments env
        [{ url := u, index := 0, encryption := some enc, seqId := si,
           isInitSegment := false }] = .ok [some bytes] := by
  have hmP : (enc.method = ('A' :: 'E' :: 'S' :: '-' :: '1' :: '2' :: '8' :: [])) = False := by
    simp only [eq_iff_iff, iff_false]
    intro hc
    exact hm hc
  simp [downloadSegments, chunks5, dlGo, runBatch, runBatchGo, runTask, hf, hb, hmP]

/-- Witness for amended C1: the `SAMPLE-AES` fixture satisfies the
hypotheses and stores the raw fetched bytes. -/
theorem unsupported_method_skips_decrypt_witness :
    ("SAMPLE-AES".toList ≠ "AES-128".toList ∧ "SAMPLE-AES".toList ≠ "NONE".toList ∧
      sampleAesEnv.fetchSeg "https://s/seg1.ts".toList = some [1, 2, 3] ∧
      sampleAesEnv.abortedAtBatch 0 = false) ∧
    downloadSegments sampleAesEnv [sampleAesSeg] = .ok [some [1, 2, 3]] :=
  ⟨⟨by decide, by decide, rfl, rfl⟩,
    unsupported_method_skips_decrypt sampleAesEnv
      { method := "SAMPLE-AES".toList, uri := "https://s/key.bin".toList, iv := none }
      "https://s/seg1.ts".toList (some 1) [1, 2, 3] (by decide) (by decide) rfl rfl⟩

/-- Successive stores distribute over list concatenation. -/
theorem writeRun_append (env : DlEnv) :
    ∀ (l1 l2 : List Segment) (res : List (Option (List Nat))),
      writeRun env res (l1 ++ l2) = writeRun env (writeRun env res l1) l2 := by
  intro l1
  induction l1 with
  | nil => intro l2 res; rfl
  | cons seg rest ih => intro l2 res; exact ih l2 _

/-- A batch whose tasks all succeed stores every output and rejects
nothing. -/
theorem runBatchGo_all_ok (env : DlEnv) :
    ∀ (batch : List Segment) (res : List (Option (List Nat))),
      (∀ seg ∈ batch, ∃ d, runTask env seg = .ok d) →
      runBatchGo env batch res none = (writeRun env res batch, none) := by
  intro batch
  induction batch with
  | nil => intro res _; rfl
  | cons seg rest ih =>
    intro res hall
    obtain ⟨d, hd⟩ := hall seg (List.mem_cons_self seg rest)
    unfold runBatchGo writeRun
    rw [hd]
    exact ih _ (fun s2 h2 => hall s2 (List.mem_cons_of_mem seg h2))

/-- Once a batch has recorded a rejection, it keeps exactly that one. -/
theorem runBatchGo_err_sticky (env : DlEnv) :
    ∀ (batch : List Segment) (res : List (Option (List Nat))) (e0 : DlError),
      (runBatchGo env batch res (some e0)).2 = some e0 := by
  intro batch
  induction batch with
  | nil => intros; rfl
  | cons seg rest ih =>
    intro res e0
    unfold runBatchGo
    cases hr : runTask env seg with
    | ok d => exact ih _ _
    | error e =>
      cases hc : env.abortedAtCatch seg.index with
      | true => exact ih _ _
      | false => exact ih _ _

/-- With no catch-time suppression, a batch containing a failing task
rejects. -/
theorem runBatchGo_failure (env : DlEnv) (hnc : ∀ i, env.abortedAtCatch i = false) :
    ∀ (batch : List Segment) (res : List (Option (List Nat))),
      (∃ seg ∈ batch, ∃ e, runTask env seg = .error e) →
      ∃ e2, (runBatchGo env batch res none).2 = some e2 := by
  intro batch
  induction batch with
  | nil =>
    intro res hex
    obtain ⟨seg, hs, _⟩ := hex
    exact absurd hs (by simp)
  | cons seg rest ih =>
    intro res hex
    unfold runBatchGo
    cases hr : runTask env seg with
    | error e =>
      rw [hnc seg.index]
      simp only [Bool.false_eq_true, if_false]
      exact ⟨e, runBatchGo_err_sticky env rest res e⟩
    | ok d =>
      refine ih _ ?_
      obtain ⟨seg2, hs2, e2, he2⟩ := hex
      rcases List.mem_cons.mp hs2 with h2 | h2
      · rw [h2] at he2
        rw [he2] at hr
        exact Except.noConfusion hr
      · exact ⟨seg2, h2, e2, he2⟩

/-- With no abort observed anywhere and every task succeeding, the loop
returns the fully written results array. -/
theorem dlGo_all_ok (env : DlEnv) (hnb : ∀ b, env.abortedAtBatch b = false) :
    ∀ (batches : List (List Segment)) (b : Nat) (res : List (Option (List Nat))),
      (∀ seg ∈ batches.flatten, ∃ d, runTask env seg = .ok d) →
      dlGo env b res batches = .ok (writeRun env res batches.flatten) := by
  intro batches
  induction batches with
  | nil => intro b res _; rfl
  | cons batch rest ih =>
    intro b res hall
    have hbatch : ∀ seg ∈ batch, ∃ d, runTask env seg = .ok d := by
      intro seg hs
      exact hall seg (by simp [List.mem_append, hs])
    have hrest : ∀ seg ∈ rest.flatten, ∃ d, runTask env seg = .ok d := by
      intro seg hs
      exact hall seg (by simp [List.mem_append, hs])
    unfold dlGo
    rw [hnb b]
    simp only [Bool.false_eq_true, if_false]
    unfold runBatch
    rw [runBatchGo_all_ok env batch res hbatch,
      show (batch :: rest).flatten = batch ++ rest.flatten from rfl, writeRun_append]
    exact ih (b + 1) (writeRun env res batch) hrest

/-- With no abort observed anywhere and no catch-time suppression, a
failing task anywhere fails the whole loop. -/
theorem dlGo_failure (env : DlEnv) (hnb : ∀ b, env.abortedAtBatch b = false)
    (hnc : ∀ i, env.abortedAtCatch i = false) :
    ∀ (batches : List (List Segment)) (b : Nat) (res : List (Option (List Nat))),
      (∃ seg ∈ batches.flatten, ∃ e, runTask env seg = .error e) →
      ∃ e, dlGo env b res batches = .error e := by
  intro batches
  induction batches with
  | nil =>
    intro b res hex
    obtain ⟨seg, hs, _⟩ := hex
    exact absurd hs (by simp)
  | cons batch rest ih =>
    intro b res hex
    unfold dlGo
    rw [hnb b]
    simp only [Bool.false_eq_true, if_false]
    by_cases hbatch : ∃ seg ∈ batch, ∃ e, runTask env seg = .error e
    · obtain ⟨e2, he2⟩ := runBatchGo_failure env hnc batch res hbatch
      unfold runBatch
      rcases hrb : runBatchGo env batch res none with ⟨r1, e1⟩
      rw [hrb] at he2
      have he2x : e1 = some e2 := he2
      subst he2x
      exact ⟨e2, rfl⟩
    · have hallb : ∀ seg ∈ batch, ∃ d, runTask env seg = .ok d := by
        intro seg hs
        cases hr : runTask env seg with
        | ok d => exact ⟨d, rfl⟩
        | error e => exact absurd ⟨seg, hs, e, hr⟩ hbatch
      unfold runBatch
      rw [runBatchGo_all_ok env batch res hallb]
      refine ih (b + 1) (writeRun env res batch) ?_
      obtain ⟨seg2, hs2, e2, he2⟩ := hex
      have hs2x : seg2 ∈ batch ∨ seg2 ∈ rest.flatten := by
        simpa [List.mem_append] using hs2
      rcases hs2x with h2 | h2
      · obtain ⟨d, hd⟩ := hallb seg2 h2
        rw [hd] at he2
        exact Except.noConfusion he2
      · exact ⟨seg2, h2, e2, he2⟩

/-- Characterisation of the stores of an all-success run over segments
whose descriptor indices continue the already-written prefix: the scratch
suffix is replaced by the per-segment outputs in order. -/
theorem writeRun_shifted (env : DlEnv) :
    ∀ (l : List Segment) (pre post : List (Option (List Nat))),
      post.length = l.length →
      (∀ (i : Nat) (h : i < l.length), (l.get ⟨i, h⟩).index = pre.length + i) →
      writeRun env (pre ++ post) l =
        pre ++ l.map (fun seg => (runTask env seg).toOption) := by
  intro l
  induction l with
  | nil =>
    intro pre post hlen _
    have hp : post = [] := List.length_eq_zero.mp hlen
    subst hp
    simp [writeRun]
  | cons seg rest ih =>
    intro pre post hlen hidx
    cases post with
    | nil => simp at hlen
    | cons p ptail =>
      have hidx0 : seg.index = pre.length := by
        have h0 := hidx 0 (by simp)
        simpa using h0
      have hset : (pre ++ p :: ptail).set seg.index ((runTask env seg).toOption) =
          (pre ++ [(runTask env seg).toOption]) ++ ptail := by
        rw [hidx0, List.set_append_right _ _ (Nat.le_refl _)]
        simp
      calc writeRun env (pre ++ p :: ptail) (seg :: rest)
          = writeRun env ((pre ++ p :: ptail).set seg.index ((runTask env seg).toOption))
              rest := rfl
        _ = writeRun env ((pre ++ [(runTask env seg).toOption]) ++ ptail) rest := by
              rw [hset]
        _ = (pre ++ [(runTask env seg).toOption]) ++
              rest.map (fun s2 => (runTask env s2).toOption) := by
              refine ih (pre ++ [(runTask env seg).toOption]) ptail ?_ ?_
              · simpa using hlen
              · intro i h
                have h2 := hidx (i + 1) (Nat.succ_lt_succ h)
                have h3 : (rest.get ⟨i, h⟩).index = pre.length + (i + 1) := h2
                simp only [List.length_append, List.length_cons, List.length_nil]
                omega
        _ = pre ++ (seg :: rest).map (fun s2 => (runTask env s2).toOption) := by simp

/-- C3 amended: in the absence of cancellation (no batch check observes
the signal set and no task failure is suppressed), `downloadSegments`
never returns a partial result for a parser-produced segment list (whose
descriptor indices equal their positions): a successful return is the
complete array holding every segment's processed bytes at that segment's
index, and any per-task failure fails the whole operation with an
error. -/
theorem downloadSegments_no_partial (env : DlEnv) (segs : List Segment)
    (hidx : ∀ (i : Nat) (h : i < segs.length), (segs.get ⟨i, h⟩).index = i)
    (hnb : ∀ b, env.abortedAtBatch b = false)
    (hnc : ∀ i, env.abortedAtCatch i = false) :
    (∀ arr, downloadSegments env segs = .ok arr →
      arr = segs.map (fun seg => (runTask env seg).toOption) ∧
      ∀ seg ∈ segs, ∃ d, runTask env seg = .ok d) ∧
    ((∃ seg ∈ segs, ∃ e, runTask env seg = .error e) →
      ∃ e, downloadSegments env segs = .error e) := by
  constructor
  · intro arr har
    have hall : ∀ seg ∈ segs, ∃ d, runTask env seg = .ok d := by
      by_contra hno
      push_neg at hno
      obtain ⟨seg, hs, hne⟩ := hno
      have herr : ∃ e, runTask env seg = .error e := by
        cases hr : runTask env seg with
        | ok d => exact absurd hr (hne d)
        | error e => exact ⟨e, rfl⟩
      obtain ⟨e, hgo⟩ := dlGo_failure env hnb hnc (chunks5 segs) 0
        (List.replicate segs.length none) (by rw [chunks5_flatten]; exact ⟨seg, hs, herr⟩)
      rw [show downloadSegments env segs =
        dlGo env 0 (List.replicate segs.length none) (chunks5 segs) from rfl, hgo] at har
      exact Except.noConfusion har
    refine ⟨?_, hall⟩
    have hok := dlGo_all_ok env hnb (chunks5 segs) 0 (List.replicate segs.length none)
      (by rw [chunks5_flatten]; exact hall)
    rw [chunks5_flatten] at hok
    have hw := writeRun_shifted env segs [] (List.replicate segs.length none)
      (by simp)
      (by intro i h; rw [hidx i h]; simp)
    rw [List.nil_append] at hw
    rw [hw, List.nil_append] at hok
    rw [show downloadSegments env segs =
      dlGo env 0 (List.replicate segs.length none) (chunks5 segs) from rfl, hok] at har
    rw [Except.ok.injEq] at har
    exact har.symm
  · intro hex
    exact dlGo_failure env hnb hnc (chunks5 segs) 0 _ (by rw [chunks5_flatten]; exact hex)

/-- Counterexample to C3 as stated: with one segment whose fetch fails
while the abort signal is observed set in the task's catch block (abort
during the final batch), the failure is swallowed, the loop ends without
another batch check, and `downloadSegments` returns successfully with a
hole — a partial result, neither a complete array nor an error. -/
theorem downloadSegments_partial_counterexample :
    downloadSegments abortLastBatchEnv [plainSeg0] = .ok [none] ∧
    ([none] : List (Option (List Nat))).all Option.isSome = false := by
  decide

/-- Witness for amended C3: two plain segments, all fetches succeed, no
abort anywhere; the hypotheses hold and the conclusion follows. -/
theorem downloadSegments_no_partial_witness :
    (∀ (i : Nat) (h : i < twoPlainSegs.length), (twoPlainSegs.get ⟨i, h⟩).index = i) ∧
    ((∀ arr, downloadSegments noAbortEnv twoPlainSegs = .ok arr →
        arr = twoPlainSegs.map (fun seg => (runTask noAbortEnv seg).toOption) ∧
        ∀ seg ∈ twoPlainSegs, ∃ d, runTask noAbortEnv seg = .ok d) ∧
      ((∃ seg ∈ twoPlainSegs, ∃ e, runTask noAbortEnv seg = .error e) →
        ∃ e, downloadSegments noAbortEnv twoPlainSegs = .error e)) :=
  ⟨by decide,
    downloadSegments_no_partial noAbortEnv twoPlainSegs (by decide)
      (fun _ => rfl) (fun _ => rfl)⟩
